import Mathlib

/-
Verification of the WiiUDownloader CLI/API job-orchestration and catalog-query
logic. Go strings that are only compared for equality (status values, job ids,
file names, titles) are modelled as Lean `String`; strings whose bytes matter
(title names fed to the case-insensitive search) are modelled as `List Nat`,
one element per byte, with byte arithmetic taken modulo 256 as in Go.
Machine integers (`int64`, `uint64`, `uint8`) are modelled as `Int` / `Nat`;
none of the verified claims exercises wrap-around of a 64-bit counter.
Wall-clock times, float-valued display fields (`Progress`, `Speed`, `ETA`)
and terminal output are side effects outside the state model and are noted
where they are dropped.
-/

/-! ## Case-insensitive substring search (cmd/wiiu-api and cmd/wiiu-cli) -/

/-- One byte comparison of `equalIgnoreCase`: Go tests
`a[i] != b[i] && a[i] != b[i]+32 && a[i] != b[i]-32` on `byte` values,
so `+32`/`-32` wrap modulo 256. -/
def eqIgnoreCaseByte (x y : Nat) : Bool :=
  x == y || x == (y + 32) % 256 || x == (y + 224) % 256

/-- Go `equalIgnoreCase`: equal lengths and byte-wise `eqIgnoreCaseByte`. -/
def equalIgnoreCase : List Nat → List Nat → Bool
  | [], [] => true
  | a :: as, b :: bs => eqIgnoreCaseByte a b && equalIgnoreCase as bs
  | _, _ => false

/-- Go `containsIgnoreCaseHelper`: scan every window of length `|sub|`. -/
def containsIgnoreCaseHelper (s sub : List Nat) : Bool :=
  (List.range (s.length - sub.length + 1)).any fun i =>
    equalIgnoreCase ((s.drop i).take sub.length) sub

/-- Go `containsIgnoreCase`:
`len(s) >= len(substr) && (s == substr || containsIgnoreCaseHelper s substr)`. -/
def containsIgnoreCase (s sub : List Nat) : Bool :=
  decide (sub.length ≤ s.length) && (s == sub || containsIgnoreCaseHelper s sub)

/-- ASCII lower-casing of one byte, the reference notion the spec appeals to
("lowercasing both sides"). -/
def toLowerByte (b : Nat) : Nat :=
  if 65 ≤ b ∧ b ≤ 90 then b + 32 else b

/-- The byte relation `containsIgnoreCase` actually decides: identical bytes,
or bytes differing by exactly 32 modulo 256. -/
def byteEquiv (x y : Nat) : Prop :=
  x = y ∨ x = (y + 32) % 256 ∨ x = (y + 224) % 256

/-- Declarative window match: some window of `name` is byte-wise
`byteEquiv`-related to `search`. -/
def ContainsEquiv (name search : List Nat) : Prop :=
  ∃ i, i + search.length ≤ name.length ∧
    List.Forall₂ byteEquiv ((name.drop i).take search.length) search

/-- Declarative case-insensitive substring match as the spec words it:
lowercasing both sides yields an ordinary substring match. -/
def LowerContains (name search : List Nat) : Prop :=
  ∃ i, i + search.length ≤ name.length ∧
    ((name.map toLowerByte).drop i).take search.length = search.map toLowerByte

/-! ## Catalog entries and the list filters of `handleListTitles` -/

/-- Catalog entry (`wiiudownloader.TitleEntry`): 64-bit id, name bytes,
8-bit region mask. -/
structure TitleEntry where
  TitleID : Nat
  Name : List Nat
  Region : Nat
deriving DecidableEq, Repr

/-- Upper 32 bits of a title id (`entry.TitleID >> 32`). -/
def titleHigh (tid : Nat) : Nat := tid >>> 32

/-- The `case "wiiu"` table of `handleListTitles` (game, demo, system app,
system data, system applet, DLC, update). -/
def wiiuHighs : List Nat :=
  [0x00050000, 0x00050002, 0x00050010, 0x0005001B,
   0x00050030, 0x0005000C, 0x0005000E]

/-- The `case "vwii"` table of `handleListTitles`. -/
def vwiiHighs : List Nat := [0x00000007, 0x00070002, 0x00070008]

/-- The `case "switch"` table of `handleListTitles`. -/
def switchHighs : List Nat :=
  [0x01000000, 0x01000002, 0x01000080, 0x01000081,
   0x01000082, 0x0100000C, 0x0100000E]

/-- The `case "3ds"` table of `handleListTitles`. -/
def threeDSHighs : List Nat :=
  [0x00040000, 0x00040002, 0x00040010, 0x0004001B,
   0x00040030, 0x0004000C, 0x0004000E]

/-- Platform table of `handleListTitles` in the API server: the fixed
per-platform lists of title-id upper halves for each recognized platform
token; an unrecognized token is a 400 error, `"all"` disables the filter
(handled by the caller). -/
def platformHighsFor (platform : String) : Option (List Nat) :=
  match platform with
  | "wiiu" => some wiiuHighs
  | "vwii" => some vwiiHighs
  | "switch" => some switchHighs
  | "3ds" => some threeDSHighs
  | _ => none

/-- Platform filtering stage: keep entries whose high 32 bits equal one of the
table entries (the Go inner loop with `break` is a disjunction). -/
def platformFilter (highs : List Nat) (entries : List TitleEntry) : List TitleEntry :=
  entries.filter fun e => highs.any fun p => titleHigh e.TitleID == p

/-- Modelled from the spec: the numeric value of the constant
`MCP_REGION_JAPAN` of the external library (`regionMask` is a "bitmask over
{Japan, USA, Europe}"); the exact value is irrelevant to the claims proved
here. -/
def MCP_REGION_JAPAN : Nat := 1

/-- Modelled from the spec: the `MCP_REGION_USA` bit of the external library. -/
def MCP_REGION_USA : Nat := 2

/-- Modelled from the spec: the `MCP_REGION_EUROPE` bit of the external library. -/
def MCP_REGION_EUROPE : Nat := 4

/-- Region token table of `handleListTitles` / `handleListSearch`:
recognized tokens map to a mask, anything else is an error. -/
def regionMaskFor (region : String) : Option Nat :=
  match region with
  | "japan" => some MCP_REGION_JAPAN
  | "usa" => some MCP_REGION_USA
  | "europe" => some MCP_REGION_EUROPE
  | _ => none

/-- Region filtering stage: `entry.Region & regionMask != 0`. -/
def regionFilter (mask : Nat) (entries : List TitleEntry) : List TitleEntry :=
  entries.filter fun e => decide (e.Region &&& mask ≠ 0)

/-- Search filtering stage: applied only when the search string is nonempty
(`if search != ""`), so the empty search keeps every entry. -/
def searchFilter (search : List Nat) (entries : List TitleEntry) : List TitleEntry :=
  if search.isEmpty then entries
  else entries.filter fun e => containsIgnoreCase e.Name search

/-- Modelled from the spec: `GetTitleEntries(categoryFlag)` lives in the
external catalog library, not under `src/`; the spec says category filtering
"selects by platform+category prefix groups", i.e. it restricts the catalog by
a per-entry predicate. Any such selection is modelled as a `List.filter` by an
arbitrary predicate. -/
def categoryFilter (pred : TitleEntry → Bool) (entries : List TitleEntry) : List TitleEntry :=
  entries.filter pred

/-! ## Title-id parsing and `handleStartDownload` (API server) -/

/-- Hexadecimal value of one character, as accepted by the Go call
`strconv.ParseUint(s, 16, 64)` (no sign, no prefix, no underscores). -/
def hexDigitVal (c : Char) : Option Nat :=
  if '0' ≤ c ∧ c ≤ '9' then some (c.toNat - 48)
  else if 'a' ≤ c ∧ c ≤ 'f' then some (c.toNat - 87)
  else if 'A' ≤ c ∧ c ≤ 'F' then some (c.toNat - 55)
  else none

/-- Accumulating core of the hex parse; errors out as soon as the value can no
longer fit in 64 bits, which detects exactly the inputs Go rejects with
`ErrRange` (the accumulated value is monotone in the digits read). -/
def parseHexCore : List Char → Nat → Option Nat
  | [], acc => some acc
  | c :: cs, acc =>
    match hexDigitVal c with
    | none => none
    | some d =>
      if acc * 16 + d < 2 ^ 64 then parseHexCore cs (acc * 16 + d) else none

/-- Go `strconv.ParseUint(s, 16, 64)`: at least one digit, all digits hex,
value below `2^64`. -/
def parseHexUint64 (s : String) : Option Nat :=
  if s.data.isEmpty then none else parseHexCore s.data 0

/-- Modelled from the spec: `wiiudownloader.GetTitleEntryFromTid` lives in the
external catalog library, not under `src/`. The contract in the spec is
`lookup(id) → Entry or "not found"` over a fixed mapping with unique ids; the
callers in `src/` detect "not found" as a returned entry whose `TitleID` is
zero, so the miss case returns the zero entry. -/
def GetTitleEntryFromTid (catalog : List TitleEntry) (tid : Nat) : TitleEntry :=
  match catalog.find? (fun e => e.TitleID == tid) with
  | some e => e
  | none => ⟨0, [], 0⟩

/-- Decoded body of `POST /download` (after successful JSON decoding). -/
structure StartReq where
  titleID : String
  decrypt : Bool
  deleteEncrypted : Bool
deriving DecidableEq, Repr

/-- Observable outcome of `handleStartDownload`: the HTTP status, whether a
job was inserted into `s.jobs`, whether `os.MkdirAll` was reached, and whether
a background goroutine was launched. -/
structure StartOutcome where
  httpStatus : Nat
  insertedJob : Bool
  reachedMkdir : Bool
  launched : Bool
deriving DecidableEq, Repr

/-- Control flow of `handleStartDownload` (API server): empty id → 400,
unparsable id → 400, unknown id → 404, directory-creation failure → 500
(mkdir was reached), otherwise the job is stored and the goroutine launched
with a 202. `mkdirOk` stands for the success of `os.MkdirAll`, an external
filesystem effect. -/
def handleStartDownload (catalog : List TitleEntry) (req : StartReq)
    (mkdirOk : Bool) : StartOutcome :=
  if req.titleID = "" then ⟨400, false, false, false⟩
  else
    match parseHexUint64 req.titleID with
    | none => ⟨400, false, false, false⟩
    | some tid =>
      let entry := GetTitleEntryFromTid catalog tid
      if entry.TitleID = 0 then ⟨404, false, false, false⟩
      else if mkdirOk then ⟨202, true, true, true⟩
      else ⟨500, false, true, false⟩

/-! ## Job records, `processDownload` and `handleCancelDownload` -/

/-- The job fields the status/cancel/finalize logic reads and writes.
`Progress`, `Speed`, `ETA` (floats / formatted strings) and the wall-clock
value of `EndTime` are display data outside the model; `endTimeSet` records
whether `EndTime` was assigned. -/
structure JobRec where
  status : String
  error : String
  endTimeSet : Bool
deriving DecidableEq, Repr

/-- Is a status value terminal (`completed`, `failed`, `cancelled`)? -/
def isTerminalStatus (s : String) : Bool :=
  s == "completed" || s == "failed" || s == "cancelled"

/-- Tail of `processDownload` after `DownloadTitle` returns: set `EndTime`;
on a non-nil error keep `cancelled` if a cancellation already took effect and
otherwise record `failed` with the error text; on a nil error set `completed`
(the source also forces `Progress = 100.0`). The `job` argument is the record
as it stands when the call returns, so a concurrent cancellation is an
arbitrary prior `status`. -/
def processDownloadFinalize (job : JobRec) (err : Option String) : JobRec :=
  let job1 : JobRec := { job with endTimeSet := true }
  match err with
  | some e =>
    if job1.status = "cancelled" then { job1 with status := "cancelled" }
    else { job1 with status := "failed", error := e }
  | none => { job1 with status := "completed" }

/-- Outcome of the single `DownloadTitle` call: normal success, normal error,
or an abnormal abort (panic) that never returns to the caller. -/
inductive FetchOutcome where
  | success : FetchOutcome
  | failure : String → FetchOutcome
  | abort : FetchOutcome
deriving DecidableEq, Repr

/-- Whole body of `processDownload`: set `downloading`, run the fetch, then
finalize. The source contains no `defer`/`recover` around the call, so on an
abnormal abort of `DownloadTitle` none of the code after the call runs and the
record is left exactly as it was when the call started. -/
def processDownload (job : JobRec) (outcome : FetchOutcome) : JobRec :=
  let running : JobRec := { job with status := "downloading" }
  match outcome with
  | .success => processDownloadFinalize running none
  | .failure e => processDownloadFinalize running (some e)
  | .abort => running

/-- Lookup in the `s.jobs` map (keys are unique job ids). -/
def regLookup : List (String × JobRec) → String → Option JobRec
  | [], _ => none
  | (k, j) :: rest, q => if k = q then some j else regLookup rest q

/-- In-place mutation of one job record through its map pointer. -/
def regSet : List (String × JobRec) → String → JobRec → List (String × JobRec)
  | [], _, _ => []
  | (k, j) :: rest, q, j1 =>
    if k = q then (k, j1) :: rest else (k, j) :: regSet rest q j1

/-- Observable outcome of `handleCancelDownload`. -/
structure CancelOutcome where
  httpStatus : Nat
  registry : List (String × JobRec)
deriving DecidableEq, Repr

/-- `handleCancelDownload` (API server): 404 for an unknown job id; 400 when
the job is `completed` or `failed`; otherwise (any other status, including an
already-cancelled job) it signals the context, marks the job `cancelled`,
stamps `EndTime` and answers 200. -/
def handleCancelDownload (reg : List (String × JobRec)) (jobID : String) :
    CancelOutcome :=
  match regLookup reg jobID with
  | none => ⟨404, reg⟩
  | some job =>
    if job.status = "completed" ∨ job.status = "failed" then ⟨400, reg⟩
    else ⟨200, regSet reg jobID { job with status := "cancelled", endTimeSet := true }⟩

/-! ## Progress reporters: CLI (console) and API (record-mutating) -/

/-- Go map assignment `m[k] = v` on an association list whose keys are kept
unique: replace the binding if the key is present, otherwise append it. -/
def mapSet : List (String × Int) → String → Int → List (String × Int)
  | [], k, v => [(k, v)]
  | (a, b) :: rest, k, v =>
    if a = k then (a, v) :: rest else (a, b) :: mapSet rest k v

/-- Go map read `m[k]` returning presence. -/
def mapLookup : List (String × Int) → String → Option Int
  | [], _ => none
  | (a, b) :: rest, q => if a = q then some b else mapLookup rest q

/-- Sum of all values of the map, as the recomputation loop of the CLI reporter
`for _, size := range c.fileProgress { c.downloadedSize += size }` computes it
(Go map iteration order is irrelevant: integer addition commutes). -/
def mapSum (m : List (String × Int)) : Int :=
  (m.map Prod.snd).sum

/-- Specification value: the most recent value reported for key `k` in the
update sequence `us`, `none` when `k` never occurred. -/
def lastUpdate (us : List (String × Int)) (k : String) : Option Int :=
  ((us.filter fun p => p.1 = k).map Prod.snd).getLast?

/-- Specification value: the most recent value reported for `k`, defaulting to
zero. -/
def lastValueFor (us : List (String × Int)) (k : String) : Int :=
  (lastUpdate us k).getD 0

/-- Specification value: the set of distinct file keys of an update
sequence. -/
def keyFinset (us : List (String × Int)) : Finset String :=
  (us.map Prod.fst).toFinset

/-- State of `CLIProgressReporter` (cmd/wiiu-cli/progress.go). The printed
progress line is a side effect outside the state. -/
structure CLIState where
  gameTitle : String
  totalSize : Int
  downloadedSize : Int
  startTime : Option Nat
  cancelled : Bool
  fileProgress : List (String × Int)
  totalFiles : Int
  completedFiles : Int
deriving DecidableEq, Repr

/-- `NewCLIProgressReporter`: zero values and an empty map. -/
def cliInit : CLIState :=
  ⟨"", 0, 0, none, false, [], 0, 0⟩

/-- `CLIProgressReporter.UpdateDownloadProgress`: upsert the per-file entry,
then recompute the aggregate as the sum of the whole map. -/
def cliUpd (st : CLIState) (filename : String) (downloaded : Int) : CLIState :=
  { st with fileProgress := mapSet st.fileProgress filename downloaded,
            downloadedSize := mapSum (mapSet st.fileProgress filename downloaded) }

/-- State of the job record as far as `APIProgressReporter` touches it.
`Progress`, `Speed` and `ETA` are float/wall-clock display fields outside the
model; `status` is the status string of the job (the cancellation flag of the reporter
is `status == "cancelled"`). -/
structure APIJobState where
  titleName : String
  status : String
  downloaded : Int
  downloadSize : Int
deriving DecidableEq, Repr

/-- Job record as `handleStartDownload` creates it: resolved title, status
`pending`, zero counters. -/
def apiInit (titleName : String) : APIJobState :=
  ⟨titleName, "pending", 0, 0⟩

/-- The shared capability surface both reporters implement
(`UpdateDecryptionProgress` touches only the float display field and is not
part of the compared state). `setStartTime` carries an opaque clock tick. -/
inductive ProgressOp where
  | setGameTitle : String → ProgressOp
  | updateDownloadProgress : Int → String → ProgressOp
  | setDownloadSize : Int → ProgressOp
  | resetTotals : ProgressOp
  | markFileAsDone : String → ProgressOp
  | setTotalDownloadedForFile : String → Int → ProgressOp
  | setCancelled : ProgressOp
  | setStartTime : Nat → ProgressOp
deriving DecidableEq, Repr

/-- One step of `CLIProgressReporter`, method by method from the source. -/
def cliStep (st : CLIState) : ProgressOp → CLIState
  | .setGameTitle t => { st with gameTitle := t }
  | .updateDownloadProgress d f => cliUpd st f d
  | .setDownloadSize n => { st with totalSize := n }
  | .resetTotals => { st with downloadedSize := 0, totalSize := 0,
                              completedFiles := 0, totalFiles := 0,
                              fileProgress := [] }
  | .markFileAsDone _ => { st with completedFiles := st.completedFiles + 1 }
  | .setTotalDownloadedForFile f d =>
      { st with fileProgress := mapSet st.fileProgress f d }
  | .setCancelled => { st with cancelled := true }
  | .setStartTime t => { st with startTime := some t,
                                 totalFiles := Int.ofNat st.fileProgress.length }

/-- One step of `APIProgressReporter`, method by method from the source:
`UpdateDownloadProgress` overwrites `Downloaded` with the reported value,
`ResetTotals` clears only `Downloaded` (and the float `Progress`), and
`MarkFileAsDone`, `SetTotalDownloadedForFile`, `SetStartTime` have empty
bodies. -/
def apiStep (st : APIJobState) : ProgressOp → APIJobState
  | .setGameTitle t => { st with titleName := t }
  | .updateDownloadProgress d _ => { st with downloaded := d }
  | .setDownloadSize n => { st with downloadSize := n }
  | .resetTotals => { st with downloaded := 0 }
  | .markFileAsDone _ => st
  | .setTotalDownloadedForFile _ _ => st
  | .setCancelled => { st with status := "cancelled" }
  | .setStartTime _ => st

/-- `CLIProgressReporter.Cancelled`. -/
def cliCancelledFlag (st : CLIState) : Bool := st.cancelled

/-- `APIProgressReporter.Cancelled`: `a.job.Status == "cancelled"`. -/
def apiCancelledFlag (st : APIJobState) : Bool := st.status == "cancelled"

/-- The recorded data on which the two reporter implementations agree:
the resolved title and the cancellation flag. -/
def reporterAgree (c : CLIState) (a : APIJobState) : Prop :=
  c.gameTitle = a.titleName ∧ cliCancelledFlag c = apiCancelledFlag a

/-- Run a bare sequence of `updateFileProgress` calls (pairs of file key and
reported byte count) on the CLI reporter. -/
def cliRunUpdates (us : List (String × Int)) : CLIState :=
  us.foldl (fun st p => cliUpd st p.1 p.2) cliInit

/-- Run the same bare sequence on the API reporter. -/
def apiRunUpdates (us : List (String × Int)) : APIJobState :=
  us.foldl (fun st p => apiStep st (.updateDownloadProgress p.2 p.1)) (apiInit "")

/-! ## Field-access table of the API server (lock discipline) -/

/-- One operation of the API server that touches a published job record:
which job fields it writes, which it reads, and whether it holds the per-job
reporter lock (`APIProgressReporter.mu`) while doing so. Read directly from
the source; the initialisation writes inside `handleStartDownload` happen before the
record is published in the map and are not listed. -/
structure AccessSite where
  opName : String
  isReporterMethod : Bool
  writesFields : List String
  readsFields : List String
  holdsJobLock : Bool
deriving DecidableEq, Repr

/-- The post-publication accesses to job fields in the API server source. -/
def apiAccessSites : List AccessSite :=
  [⟨"APIProgressReporter.SetGameTitle", true, ["TitleName"], [], true⟩,
   ⟨"APIProgressReporter.UpdateDownloadProgress", true,
      ["Downloaded", "Progress", "Speed", "ETA"], ["DownloadSize"], true⟩,
   ⟨"APIProgressReporter.UpdateDecryptionProgress", true, ["Progress"], [], true⟩,
   ⟨"APIProgressReporter.Cancelled", true, [], ["Status"], true⟩,
   ⟨"APIProgressReporter.SetCancelled", true, ["Status"], [], true⟩,
   ⟨"APIProgressReporter.SetDownloadSize", true, ["DownloadSize"], [], true⟩,
   ⟨"APIProgressReporter.ResetTotals", true, ["Downloaded", "Progress"], [], true⟩,
   ⟨"APIProgressReporter.MarkFileAsDone", true, [], [], false⟩,
   ⟨"APIProgressReporter.SetTotalDownloadedForFile", true, [], [], false⟩,
   ⟨"APIProgressReporter.SetStartTime", true, [], [], false⟩,
   ⟨"Server.processDownload", false,
      ["Status", "EndTime", "Error", "Progress"], ["Status"], false⟩,
   ⟨"Server.handleCancelDownload", false,
      ["Status", "EndTime"], ["Status"], false⟩,
   ⟨"Server.handleGetDownloadStatus", false, [],
      ["ID", "TitleID", "TitleName", "Status", "Progress", "DownloadSize",
       "Downloaded", "Speed", "ETA", "OutputDir", "StartTime", "Decrypt",
       "DeleteEncrypted", "Error", "EndTime"], false⟩]

/-! ## General helper lemmas -/

/-- Filtering by the same predicate twice is filtering once. -/
theorem filter_self_idem {α : Type} (p : α → Bool) (l : List α) :
    (l.filter p).filter p = l.filter p := by
  induction l with
  | nil => rfl
  | cons a l ih =>
    by_cases h : p a = true
    · simp [List.filter_cons, h, ih]
    · simp [List.filter_cons, h, ih]

/-- Replacing a present key leaves the other registry bindings in place and
yields the new binding at the key. -/
theorem regLookup_regSet_self (reg : List (String × JobRec)) (id : String)
    (j j1 : JobRec) (h : regLookup reg id = some j) :
    regLookup (regSet reg id j1) id = some j1 := by
  induction reg with
  | nil => simp [regLookup] at h
  | cons kj rest ih =>
    obtain ⟨k, x⟩ := kj
    by_cases hk : k = id
    · simp [regLookup, regSet, hk]
    · simp only [regLookup, regSet, if_neg hk] at h ⊢
      exact ih h

/-! ## Claim theorems -/

/-- C8: for every supported platform token, region token, search string and
category predicate, the corresponding filtering stage is idempotent: applying
the same filter to its own output returns the same sequence in the same
order. (`GetTitleEntries` category selection is modelled from the spec as a
predicate filter, see `categoryFilter`.) -/
theorem c8_filters_idempotent (tok rtok : String) (hs : List Nat) (m : Nat)
    (s : List Nat) (p : TitleEntry → Bool) (entries : List TitleEntry) :
    (platformHighsFor tok = some hs →
      platformFilter hs (platformFilter hs entries) = platformFilter hs entries)
  ∧ (regionMaskFor rtok = some m →
      regionFilter m (regionFilter m entries) = regionFilter m entries)
  ∧ searchFilter s (searchFilter s entries) = searchFilter s entries
  ∧ categoryFilter p (categoryFilter p entries) = categoryFilter p entries := by
  refine ⟨fun _ => filter_self_idem _ entries, fun _ => filter_self_idem _ entries, ?_,
    filter_self_idem _ entries⟩
  by_cases hempty : s.isEmpty
  · simp [searchFilter, hempty]
  · simp [searchFilter, hempty, filter_self_idem]

/-- Witness for C8 at the `"wiiu"` and `"usa"` tokens on a one-entry
catalog. -/
theorem c8_filters_idempotent_witness :
    platformFilter wiiuHighs (platformFilter wiiuHighs [⟨0x0005000011223344, [0x41], 2⟩]) =
      platformFilter wiiuHighs [⟨0x0005000011223344, [0x41], 2⟩]
  ∧ regionFilter MCP_REGION_USA (regionFilter MCP_REGION_USA [⟨0x0005000011223344, [0x41], 2⟩]) =
      regionFilter MCP_REGION_USA [⟨0x0005000011223344, [0x41], 2⟩] := by
  have h := c8_filters_idempotent "wiiu" "usa" wiiuHighs MCP_REGION_USA [0x41]
    (fun e => e.Region == 2) [⟨0x0005000011223344, [0x41], 2⟩]
  exact ⟨h.1 rfl, h.2.1 rfl⟩

/-- C10: the service-reporter methods `SetTotalDownloadedForFile`, `MarkFileAsDone`
and `SetStartTime` have empty bodies: for every job state and every argument
they leave the record unchanged, so per-file byte reports and file-completion
reports are dropped in service mode. -/
theorem c10_noop_methods (st : APIJobState) (f : String) (d : Int) (t : Nat) :
    apiStep st (.setTotalDownloadedForFile f d) = st
  ∧ apiStep st (.markFileAsDone f) = st
  ∧ apiStep st (.setStartTime t) = st :=
  ⟨rfl, rfl, rfl⟩

/-- C6: `processDownload` has no deferred finalizer around its
`DownloadTitle` call, so an abnormal abort of the call leaves the job in the
non-terminal `downloading` state; only a normal return (success or error)
reaches the terminal-state assignment. -/
theorem c6_abort_not_terminal :
    (processDownload ⟨"pending", "", false⟩ .abort).status = "downloading"
  ∧ isTerminalStatus (processDownload ⟨"pending", "", false⟩ .abort).status = false
  ∧ (∀ job e, isTerminalStatus (processDownload job (.failure e)).status = true)
  ∧ (∀ job, isTerminalStatus (processDownload job .success).status = true) := by
  refine ⟨rfl, by decide, fun job e => ?_, fun job => ?_⟩
  · simp [processDownload, processDownloadFinalize, isTerminalStatus]
  · simp [processDownload, processDownloadFinalize, isTerminalStatus]

/-- C1 (amended): terminal-state preservation holds on the error path and for
the cancel handler — a job already cancelled when the fetch returns an error
stays cancelled, and a `completed` or `failed` job is left untouched by
cancellation — but a nil fetch error unconditionally sets `completed`, even
when the job is already `cancelled`. -/
theorem c1_terminal_preservation (job : JobRec) (e : String)
    (reg : List (String × JobRec)) (id : String) (j : JobRec) :
    (job.status = "cancelled" → (processDownloadFinalize job (some e)).status = "cancelled")
  ∧ (processDownloadFinalize job none).status = "completed"
  ∧ (regLookup reg id = some j → j.status = "completed" ∨ j.status = "failed" →
      handleCancelDownload reg id = ⟨400, reg⟩) := by
  refine ⟨fun h => ?_, rfl, fun hlook hterm => ?_⟩
  · simp [processDownloadFinalize, h]
  · simp [handleCancelDownload, hlook, hterm]

/-- Counterexample to C1 as stated: a job in the terminal `cancelled` state
whose fetch call returns a nil error is moved to `completed`. -/
theorem c1_counterexample :
    (processDownloadFinalize ⟨"cancelled", "", true⟩ none).status = "completed"
  ∧ ("completed" : String) ≠ "cancelled" := by
  exact ⟨rfl, by decide⟩

/-- Witness for C1 at a cancelled job with a failing fetch and at a completed
job receiving a cancel request. -/
theorem c1_terminal_preservation_witness :
    (processDownloadFinalize ⟨"cancelled", "", false⟩ (some "boom")).status = "cancelled"
  ∧ handleCancelDownload [("j", ⟨"completed", "", true⟩)] "j" =
      ⟨400, [("j", ⟨"completed", "", true⟩)]⟩ := by
  have h := c1_terminal_preservation ⟨"cancelled", "", false⟩ "boom"
    [("j", ⟨"completed", "", true⟩)] "j" ⟨"completed", "", true⟩
  exact ⟨h.1 rfl, h.2.2 (by decide) (Or.inl rfl)⟩

/-- C3 (amended): cancellation answers 404 for an unknown job id and 400
(`InvalidState`) exactly when the job is `completed` or `failed`; for every
other status — including a job already `cancelled` by an earlier request —
it succeeds with 200 and (re)marks the job cancelled, so a second
cancellation does not fail. -/
theorem c3_cancel_semantics (reg : List (String × JobRec)) (id : String) :
    (regLookup reg id = none → handleCancelDownload reg id = ⟨404, reg⟩)
  ∧ (∀ j, regLookup reg id = some j →
      j.status = "completed" ∨ j.status = "failed" →
      handleCancelDownload reg id = ⟨400, reg⟩)
  ∧ (∀ j, regLookup reg id = some j →
      ¬(j.status = "completed" ∨ j.status = "failed") →
      (handleCancelDownload reg id).httpStatus = 200 ∧
      regLookup (handleCancelDownload reg id).registry id =
        some { j with status := "cancelled", endTimeSet := true }) := by
  refine ⟨fun h => ?_, fun j hlook hterm => ?_, fun j hlook hterm => ⟨?_, ?_⟩⟩
  · simp [handleCancelDownload, h]
  · simp [handleCancelDownload, hlook, hterm]
  · simp [handleCancelDownload, hlook, hterm]
  · simp only [handleCancelDownload, hlook]
    rw [if_neg hterm]
    exact regLookup_regSet_self reg id j _ hlook

/-- Counterexample to C3 as stated: after a first cancellation has taken
effect (the status of the job is `cancelled`), a second cancellation request
answers 200, not 400. -/
theorem c3_counterexample :
    (handleCancelDownload
      (handleCancelDownload [("j", ⟨"downloading", "", false⟩)] "j").registry
      "j").httpStatus = 200
  ∧ (regLookup (handleCancelDownload [("j", ⟨"downloading", "", false⟩)] "j").registry
      "j").map JobRec.status = some "cancelled"
  ∧ (200 : Nat) ≠ 400 := by decide

/-- Witness for C3 at a one-job registry: a failed job yields 400 and an
already-cancelled job yields 200. -/
theorem c3_cancel_semantics_witness :
    handleCancelDownload [("k", ⟨"failed", "e", true⟩)] "k" =
      ⟨400, [("k", ⟨"failed", "e", true⟩)]⟩
  ∧ (handleCancelDownload [("q", ⟨"cancelled", "", true⟩)] "q").httpStatus = 200 := by
  refine ⟨(c3_cancel_semantics [("k", ⟨"failed", "e", true⟩)] "k").2.1
    ⟨"failed", "e", true⟩ (by decide) (Or.inr rfl), ?_⟩
  exact ((c3_cancel_semantics [("q", ⟨"cancelled", "", true⟩)] "q").2.2
    ⟨"cancelled", "", true⟩ (by decide) (by decide)).1

/-- C5: a syntactically valid 64-bit hexadecimal title id that resolves to no
catalog entry makes `handleStartDownload` answer 404 with no job inserted, the
directory-creation call never reached, and no background goroutine
launched. -/
theorem c5_unknown_title_404 (catalog : List TitleEntry) (req : StartReq)
    (mkdirOk : Bool) (tid : Nat)
    (hparse : parseHexUint64 req.titleID = some tid)
    (hmiss : ∀ e ∈ catalog, e.TitleID ≠ tid) :
    handleStartDownload catalog req mkdirOk = ⟨404, false, false, false⟩ := by
  have hne : req.titleID ≠ "" := by
    intro h
    rw [h] at hparse
    simp [parseHexUint64] at hparse
  have hfind : catalog.find? (fun e => e.TitleID == tid) = none := by
    apply List.find?_eq_none.mpr
    intro x hx
    simpa using hmiss x hx
  simp [handleStartDownload, hne, hparse, GetTitleEntryFromTid, hfind]

/-- Witness for C5: id `"ff"` parses to 255, which is not in a one-entry
catalog. -/
theorem c5_unknown_title_404_witness :
    handleStartDownload [⟨0x00050000101C9500, [0x4D], 2⟩] ⟨"ff", true, false⟩ true =
      ⟨404, false, false, false⟩ :=
  c5_unknown_title_404 [⟨0x00050000101C9500, [0x4D], 2⟩] ⟨"ff", true, false⟩ true 255
    (by decide) (by decide)

/-- One capability call preserves agreement of title and cancellation flag
between the two reporter implementations. -/
theorem reporterAgree_step (c : CLIState) (a : APIJobState) (op : ProgressOp)
    (h : reporterAgree c a) : reporterAgree (cliStep c op) (apiStep a op) := by
  obtain ⟨h1, h2⟩ := h
  cases op <;>
    simp_all [cliStep, apiStep, cliUpd, reporterAgree, cliCancelledFlag,
      apiCancelledFlag]

/-- C4 (amended): along every common sequence of capability calls the two
reporter implementations agree on the recorded title and on the cancellation
flag; the full recorded progress states are not equivalent (see the
counterexample: the aggregate downloaded value and the expected total after a
reset diverge, and per-file totals, completion counts and start time exist
only on the CLI side). -/
theorem c4_reporters_agree (ops : List ProgressOp) (c : CLIState)
    (a : APIJobState) (h : reporterAgree c a) :
    reporterAgree (ops.foldl cliStep c) (ops.foldl apiStep a) := by
  induction ops generalizing c a with
  | nil => exact h
  | cons op ops ih => exact ih (cliStep c op) (apiStep a op) (reporterAgree_step c a op h)

/-- Witness for C4 from the freshly created states through a title
assignment and a cancellation. -/
theorem c4_reporters_agree_witness :
    reporterAgree
      (([ProgressOp.setGameTitle "Z", ProgressOp.setCancelled]).foldl cliStep cliInit)
      (([ProgressOp.setGameTitle "Z", ProgressOp.setCancelled]).foldl apiStep (apiInit "")) :=
  c4_reporters_agree [ProgressOp.setGameTitle "Z", ProgressOp.setCancelled]
    cliInit (apiInit "") ⟨rfl, by decide⟩

/-- Counterexample to C4 as stated: after `setTotalExpected 1000`,
`resetCounters`, and per-file updates of 500 for `"a"` and 300 for `"b"`, the
CLI reporter records aggregate 800 and total 0 while the API reporter records
aggregate 300 and total 1000 — the recorded progress states are not
equivalent. -/
theorem c4_counterexample :
    ¬ ((([ProgressOp.setDownloadSize 1000, ProgressOp.resetTotals,
          ProgressOp.updateDownloadProgress 500 "a",
          ProgressOp.updateDownloadProgress 300 "b"]).foldl cliStep cliInit).downloadedSize =
        (([ProgressOp.setDownloadSize 1000, ProgressOp.resetTotals,
           ProgressOp.updateDownloadProgress 500 "a",
           ProgressOp.updateDownloadProgress 300 "b"]).foldl apiStep (apiInit "")).downloaded
      ∧ (([ProgressOp.setDownloadSize 1000, ProgressOp.resetTotals,
           ProgressOp.updateDownloadProgress 500 "a",
           ProgressOp.updateDownloadProgress 300 "b"]).foldl cliStep cliInit).totalSize =
        (([ProgressOp.setDownloadSize 1000, ProgressOp.resetTotals,
           ProgressOp.updateDownloadProgress 500 "a",
           ProgressOp.updateDownloadProgress 300 "b"]).foldl apiStep (apiInit "")).downloadSize) := by
  decide

/-- C9 (amended): in the API server every reporter-method write to a job
field happens under the reporter lock, but there are writes outside the
reporter (in `processDownload` and `handleCancelDownload`) performed with no
job lock held, and the status read (`handleGetDownloadStatus`) reads the
fields of the job with no job lock held — so the source does not maintain the
claimed lock discipline and a status read is not a lock-protected
snapshot. -/
theorem c9_lock_discipline :
    (apiAccessSites.all fun s =>
      !s.isReporterMethod || s.writesFields.isEmpty || s.holdsJobLock) = true
  ∧ (apiAccessSites.any fun s =>
      !s.isReporterMethod && !s.writesFields.isEmpty && !s.holdsJobLock) = true
  ∧ ((apiAccessSites.filter fun s => s.opName == "Server.handleGetDownloadStatus").all
      fun s => !s.holdsJobLock && !s.readsFields.isEmpty) = true := by
  decide

/-- Counterexample to C9 as stated: it is false that every field-mutating
operation holds the per-job lock (`Server.processDownload` and
`Server.handleCancelDownload` write `Status`/`EndTime` with no lock). -/
theorem c9_counterexample :
    (apiAccessSites.all fun s => s.writesFields.isEmpty || s.holdsJobLock) = false := by
  decide

/-- One-byte comparison agrees with the declarative byte relation. -/
theorem eqIgnoreCaseByte_iff (x y : Nat) :
    eqIgnoreCaseByte x y = true ↔ byteEquiv x y := by
  simp [eqIgnoreCaseByte, byteEquiv, or_assoc]

/-- `equalIgnoreCase` is the pointwise lifting of `byteEquiv` to equal-length
lists. -/
theorem equalIgnoreCase_iff :
    ∀ a b : List Nat, equalIgnoreCase a b = true ↔ List.Forall₂ byteEquiv a b
  | [], [] => by simp [equalIgnoreCase]
  | [], _ :: _ => by simp [equalIgnoreCase]
  | _ :: _, [] => by simp [equalIgnoreCase]
  | a :: as, b :: bs => by
    simp [equalIgnoreCase, eqIgnoreCaseByte_iff, equalIgnoreCase_iff as bs]

/-- If two lists have equal images under a map, the map values agree
pointwise. -/
theorem forall₂_of_map_eq {α β : Type} {f : α → β} :
    ∀ {xs ys : List α}, xs.map f = ys.map f →
      List.Forall₂ (fun x y => f x = f y) xs ys
  | [], [], _ => List.Forall₂.nil
  | [], _ :: _, h => by simp at h
  | _ :: _, [], h => by simp at h
  | x :: xs, y :: ys, h => by
    simp only [List.map_cons, List.cons.injEq] at h
    exact List.Forall₂.cons h.1 (forall₂_of_map_eq h.2)

/-- Two bytes with the same ASCII lower-casing are `byteEquiv`-related. -/
theorem byteEquiv_of_toLower_eq {x y : Nat} (h : toLowerByte x = toLowerByte y) :
    byteEquiv x y := by
  unfold toLowerByte at h
  unfold byteEquiv
  split_ifs at h <;> omega

/-- The Go search accepts exactly the declarative window matches. -/
theorem containsIgnoreCase_iff (name search : List Nat) :
    containsIgnoreCase name search = true ↔ ContainsEquiv name search := by
  simp only [containsIgnoreCase, containsIgnoreCaseHelper, Bool.and_eq_true,
    Bool.or_eq_true, decide_eq_true_eq, beq_iff_eq, List.any_eq_true,
    List.mem_range, equalIgnoreCase_iff, ContainsEquiv]
  constructor
  · rintro ⟨hlen, heq | ⟨i, hi, hf⟩⟩
    · subst heq
      refine ⟨0, by omega, ?_⟩
      rw [List.drop_zero, List.take_length]
      exact List.forall₂_same.mpr fun x _ => Or.inl rfl
    · exact ⟨i, by omega, hf⟩
  · rintro ⟨i, hb, hf⟩
    exact ⟨by omega, Or.inr ⟨i, by omega, hf⟩⟩

/-- A lower-case substring match implies a Go-search match (the Go search is
complete for the notion in the spec; the counterexample shows it is not sound). -/
theorem containsIgnoreCase_of_lowerContains {name search : List Nat}
    (h : LowerContains name search) : containsIgnoreCase name search = true := by
  obtain ⟨i, hb, he⟩ := h
  rw [containsIgnoreCase_iff]
  refine ⟨i, hb, ?_⟩
  rw [← List.map_drop, ← List.map_take] at he
  exact List.Forall₂.imp (fun x y hxy => byteEquiv_of_toLower_eq hxy)
    (forall₂_of_map_eq he)

/-- C7 (amended): an entry passes the search filter exactly when some window
of its name matches the search byte-for-byte under `byteEquiv` (equal bytes,
or bytes differing by exactly 32 modulo 256 — case-insensitive on ASCII
letters but also conflating pairs like `'1'`/`'Q'`); every lower-case
substring match passes; and the empty search string keeps every entry and is
not an error. -/
theorem c7_search_filter_semantics (name search : List Nat)
    (entries : List TitleEntry) :
    (containsIgnoreCase name search = true ↔ ContainsEquiv name search)
  ∧ (LowerContains name search → containsIgnoreCase name search = true)
  ∧ searchFilter [] entries = entries := by
  exact ⟨containsIgnoreCase_iff name search,
    fun h => containsIgnoreCase_of_lowerContains h, rfl⟩

/-- Witness for C7: the name `"MA"` matches the search `"ma"`, and the empty
search keeps a one-entry list. -/
theorem c7_search_filter_semantics_witness :
    containsIgnoreCase [0x4D, 0x41] [0x6D, 0x61] = true
  ∧ searchFilter [] [⟨1, [0x41], 2⟩] = [⟨1, [0x41], 2⟩] := by
  have h := c7_search_filter_semantics [0x4D, 0x41] [0x6D, 0x61] [⟨1, [0x41], 2⟩]
  exact ⟨h.2.1 ⟨0, by decide, by decide⟩, h.2.2⟩

/-- Counterexample to C7 as stated: the byte `'1'` (0x31) matches the byte
`'Q'` (0x51) in the Go search because they differ by exactly 32, yet
lowercasing both sides yields no substring match — an entry named `"Q"`
passes the filter for the search `"1"`. -/
theorem c7_counterexample :
    containsIgnoreCase [0x51] [0x31] = true ∧ ¬ LowerContains [0x51] [0x31] := by
  constructor
  · decide
  · rintro ⟨i, hb, he⟩
    have hi : i = 0 := by simp at hb; omega
    subst hi
    exact absurd he (by decide)

/-- Lookup after a Go map assignment: the written key reads the new value,
every other key is untouched. -/
theorem mapLookup_mapSet (m : List (String × Int)) (k : String) (v : Int)
    (q : String) :
    mapLookup (mapSet m k v) q = if q = k then some v else mapLookup m q := by
  induction m with
  | nil =>
    simp only [mapSet, mapLookup]
    by_cases h : q = k
    · subst h; simp
    · rw [if_neg (fun hh => h hh.symm), if_neg h]
  | cons ab rest ih =>
    obtain ⟨a, b⟩ := ab
    by_cases hak : a = k
    · subst hak
      simp only [mapSet, if_pos rfl, mapLookup]
      by_cases haq : a = q
      · subst haq; simp
      · rw [if_neg haq, if_neg (fun hh => haq hh.symm), if_neg haq]
    · simp only [mapSet, if_neg hak, mapLookup]
      by_cases haq : a = q
      · subst haq
        rw [if_pos rfl, if_neg hak, if_pos rfl]
      · simp only [if_neg haq]
        exact ih

/-- Writing a key that is already present does not change the key list. -/
theorem mapSet_keys_mem (m : List (String × Int)) (k : String) (v : Int)
    (h : k ∈ m.map Prod.fst) :
    (mapSet m k v).map Prod.fst = m.map Prod.fst := by
  induction m with
  | nil => simp at h
  | cons ab rest ih =>
    obtain ⟨a, b⟩ := ab
    by_cases hak : a = k
    · simp [mapSet, hak]
    · have hk : k ∈ rest.map Prod.fst := by
        simp only [List.map_cons, List.mem_cons] at h
        rcases h with h1 | h1
        · exact absurd h1.symm hak
        · exact h1
      simp [mapSet, hak, ih hk]

/-- Writing a fresh key appends it to the key list. -/
theorem mapSet_keys_not_mem (m : List (String × Int)) (k : String) (v : Int)
    (h : k ∉ m.map Prod.fst) :
    (mapSet m k v).map Prod.fst = m.map Prod.fst ++ [k] := by
  induction m with
  | nil => simp [mapSet]
  | cons ab rest ih =>
    obtain ⟨a, b⟩ := ab
    simp only [List.map_cons, List.mem_cons, not_or] at h
    obtain ⟨hka, hkrest⟩ := h
    have hak : ¬a = k := fun hh => hka hh.symm
    simp only [mapSet, if_neg hak, List.map_cons, ih hkrest, List.cons_append]

/-- A Go map assignment keeps the keys duplicate-free. -/
theorem mapSet_keys_nodup (m : List (String × Int)) (k : String) (v : Int)
    (h : (m.map Prod.fst).Nodup) : ((mapSet m k v).map Prod.fst).Nodup := by
  by_cases hk : k ∈ m.map Prod.fst
  · rw [mapSet_keys_mem m k v hk]
    exact h
  · rw [mapSet_keys_not_mem m k v hk]
    simp [List.nodup_append, h, hk]

/-- A key is absent from the map exactly when its lookup is `none`. -/
theorem mapLookup_eq_none (m : List (String × Int)) (q : String) :
    mapLookup m q = none ↔ q ∉ m.map Prod.fst := by
  induction m with
  | nil => simp [mapLookup]
  | cons ab rest ih =>
    obtain ⟨a, b⟩ := ab
    by_cases h : a = q
    · subst h
      simp [mapLookup]
    · simp only [mapLookup, if_neg h, List.map_cons, List.mem_cons, not_or, ih]
      constructor
      · intro hq
        exact ⟨fun hh => h hh.symm, hq⟩
      · intro hq
        exact hq.2

/-- With duplicate-free keys the value sum of the map is the sum of the lookups
over the set of keys. -/
theorem mapSum_eq_sum_lookup (m : List (String × Int))
    (h : (m.map Prod.fst).Nodup) :
    mapSum m = ((m.map Prod.fst).toFinset).sum fun q => (mapLookup m q).getD 0 := by
  induction m with
  | nil => simp [mapSum]
  | cons ab rest ih =>
    obtain ⟨a, b⟩ := ab
    simp only [List.map_cons, List.nodup_cons] at h
    obtain ⟨ha, hrest⟩ := h
    have hafin : a ∉ (rest.map Prod.fst).toFinset := by simpa using ha
    simp only [List.map_cons, List.toFinset_cons]
    rw [Finset.sum_insert hafin]
    have hlook : ∀ q ∈ (rest.map Prod.fst).toFinset,
        (mapLookup ((a, b) :: rest) q).getD 0 = (mapLookup rest q).getD 0 := by
      intro q hq
      have hqa : ¬a = q := by
        intro hh
        subst hh
        exact ha (by simpa using hq)
      simp [mapLookup, hqa]
    rw [Finset.sum_congr rfl hlook]
    have hea : mapLookup ((a, b) :: rest) a = some b := by simp [mapLookup]
    rw [hea]
    have hr := ih hrest
    simp only [mapSum, List.map_cons, List.sum_cons, Option.getD_some]
    simp only [mapSum] at hr
    rw [hr]

/-- Appending one progress report rewrites exactly the latest value of the reported
key. -/
theorem lastUpdate_snoc (us : List (String × Int)) (k : String) (v : Int)
    (q : String) :
    lastUpdate (us ++ [(k, v)]) q = if q = k then some v else lastUpdate us q := by
  unfold lastUpdate
  by_cases h : q = k
  · subst h
    simp [List.filter_append, List.getLast?_concat]
  · have hkq : ¬k = q := fun hh => h hh.symm
    simp [List.filter_append, h, hkq]

/-- The last element of a nonempty list exists. -/
theorem getLast?_cons_ne_none {A : Type} (a : A) (l : List A) :
    (a :: l).getLast? ≠ none := by
  induction l generalizing a with
  | nil => simp
  | cons b l ih =>
    rw [List.getLast?_cons_cons]
    exact ih b

/-- A key never reported has no latest value. -/
theorem lastUpdate_eq_none (us : List (String × Int)) (q : String) :
    lastUpdate us q = none ↔ q ∉ us.map Prod.fst := by
  induction us with
  | nil => simp [lastUpdate]
  | cons p rest ih =>
    obtain ⟨a, b⟩ := p
    by_cases h : a = q
    · subst h
      constructor
      · intro hq
        exfalso
        unfold lastUpdate at hq
        rw [List.filter_cons_of_pos (by simp)] at hq
        simp only [List.map_cons] at hq
        exact getLast?_cons_ne_none _ _ hq
      · intro hq
        exact absurd (by simp) hq
    · unfold lastUpdate at ih ⊢
      rw [List.filter_cons_of_neg (by simpa using h)]
      simp only [List.map_cons, List.mem_cons, not_or]
      constructor
      · intro hq
        exact ⟨fun hh => h hh.symm, (ih.mp hq)⟩
      · intro hq
        exact ih.mpr hq.2

/-- Running one more update folds one `cliUpd` step. -/
theorem cliRunUpdates_snoc (us : List (String × Int)) (p : String × Int) :
    cliRunUpdates (us ++ [p]) = cliUpd (cliRunUpdates us) p.1 p.2 := by
  simp [cliRunUpdates, List.foldl_append]

/-- Running one more update folds one `apiStep` step. -/
theorem apiRunUpdates_snoc (us : List (String × Int)) (p : String × Int) :
    apiRunUpdates (us ++ [p]) =
      apiStep (apiRunUpdates us) (.updateDownloadProgress p.2 p.1) := by
  simp [apiRunUpdates, List.foldl_append]

/-- Invariant of the CLI reporter under `updateFileProgress` sequences: the
per-file map has duplicate-free keys, holds exactly the latest reported value
for each key, and the aggregate is the sum of the map. -/
theorem cliRunUpdates_invariant (us : List (String × Int)) :
    ((cliRunUpdates us).fileProgress.map Prod.fst).Nodup
  ∧ (∀ q, mapLookup (cliRunUpdates us).fileProgress q = lastUpdate us q)
  ∧ (cliRunUpdates us).downloadedSize = mapSum (cliRunUpdates us).fileProgress := by
  induction us using List.reverseRecOn with
  | nil =>
    refine ⟨by simp [cliRunUpdates, cliInit], fun q => ?_, by simp [cliRunUpdates, cliInit, mapSum]⟩
    simp [cliRunUpdates, cliInit, mapLookup, lastUpdate]
  | append_singleton us p ih =>
    obtain ⟨k, v⟩ := p
    obtain ⟨h1, h2, h3⟩ := ih
    rw [cliRunUpdates_snoc]
    refine ⟨mapSet_keys_nodup _ k v h1, fun q => ?_, rfl⟩
    rw [show (cliUpd (cliRunUpdates us) (k, v).1 (k, v).2).fileProgress =
        mapSet (cliRunUpdates us).fileProgress k v from rfl]
    rw [mapLookup_mapSet, lastUpdate_snoc, h2 q]

/-- C2 (amended): for every sequence of `updateFileProgress` calls, the aggregate of the CLI
reporter equals the sum over all distinct keys of the most
recently reported value per key (hence order-independent in that sense and
idempotent under repeated identical calls); the API reporter instead stores
only the value of the most recent call, whatever its key, because
`DownloadTitle` reports an already-aggregated count. -/
theorem c2_aggregate_semantics (us : List (String × Int)) :
    (cliRunUpdates us).downloadedSize = (keyFinset us).sum (lastValueFor us)
  ∧ (apiRunUpdates us).downloaded = (us.map Prod.snd).getLastD 0 := by
  constructor
  · obtain ⟨h1, h2, h3⟩ := cliRunUpdates_invariant us
    rw [h3, mapSum_eq_sum_lookup _ h1]
    have hmemiff : ∀ q, q ∈ (cliRunUpdates us).fileProgress.map Prod.fst ↔
        q ∈ us.map Prod.fst := by
      intro q
      have e1 := mapLookup_eq_none (cliRunUpdates us).fileProgress q
      have e2 := lastUpdate_eq_none us q
      rw [h2 q] at e1
      exact not_iff_not.mp (e1.symm.trans e2)
    have hset : ((cliRunUpdates us).fileProgress.map Prod.fst).toFinset = keyFinset us := by
      apply Finset.ext
      intro q
      simp only [List.mem_toFinset, keyFinset]
      exact hmemiff q
    rw [hset]
    apply Finset.sum_congr rfl
    intro q _
    rw [lastValueFor, h2 q]
  · induction us using List.reverseRecOn with
    | nil => rfl
    | append_singleton us p ih =>
      obtain ⟨k, v⟩ := p
      rw [apiRunUpdates_snoc]
      simp [apiStep, List.getLastD_concat]

/-- Counterexample to C2 as stated: for the update sequence
`[("a", 500), ("b", 300)]` the sum of latest values per key is 800, but the
aggregate of the API reporter is 300 — the claim fails for the record-mutating
front-end. -/
theorem c2_counterexample :
    (apiRunUpdates [("a", 500), ("b", 300)]).downloaded = 300
  ∧ (keyFinset [("a", 500), ("b", 300)]).sum (lastValueFor [("a", 500), ("b", 300)]) = 800
  ∧ (300 : Int) ≠ 800 := by
  refine ⟨rfl, ?_, by decide⟩
  decide
